import Mathlib

/-!
Verification of the NL-to-SQL query hub (src/venv/app.py).

The Python source is shallowly embedded below.  Strings are modelled as
`List Char` (with `String` wrappers at the API boundary); the embedding is an
ASCII model of Python's `str` operations and of the `re` constructs actually
used by the source (`str.strip`, `str.rstrip`, `str.lower().startswith`,
`str.splitlines`, the compiled pattern `DENY_PATTERN`, and the two fence
substitutions plus the SELECT anchor in `clean_sql_from_model`).
-/

/-! ## Character classes (ASCII model of Python `str.isspace` and regex `\w`) -/

/-- Characters stripped by Python `str.strip()` and matched by regex `\s`
(ASCII model: space, tab, newline, carriage return, vertical tab, form feed,
the separator controls 0x1c-0x1f, next line 0x85 and no-break space 0xa0). -/
def pySpace (c : Char) : Bool :=
  c.toNat == 32 || c.toNat == 9 || c.toNat == 10 || c.toNat == 13 ||
  c.toNat == 11 || c.toNat == 12 || c.toNat == 28 || c.toNat == 29 ||
  c.toNat == 30 || c.toNat == 31 || c.toNat == 133 || c.toNat == 160

/-- Characters matched by regex `\w` (ASCII model): letters, digits, underscore. -/
def isWordChar (c : Char) : Bool :=
  (65 ≤ c.toNat && c.toNat ≤ 90) || (97 ≤ c.toNat && c.toNat ≤ 122) ||
  (48 ≤ c.toNat && c.toNat ≤ 57) || c.toNat == 95

/-- ASCII lower-casing, the model of Python `str.lower()` and of
`re.IGNORECASE` matching on ASCII input. -/
def lowerChar (c : Char) : Char :=
  if 65 ≤ c.toNat && c.toNat ≤ 90 then Char.ofNat (c.toNat + 32) else c

/-! ## Python string primitives -/

/-- `str.lstrip`-style removal of leading characters satisfying `p`. -/
def lstripP (p : Char → Bool) (l : List Char) : List Char := l.dropWhile p

/-- `str.rstrip`-style removal of trailing characters satisfying `p`. -/
def rstripP (p : Char → Bool) (l : List Char) : List Char :=
  (l.reverse.dropWhile p).reverse

/-- Python `str.strip()` (no arguments): trim whitespace from both ends. -/
def pyStrip (l : List Char) : List Char := rstripP pySpace (lstripP pySpace l)

/-- Embedding of the source's `t.rstrip(';').strip()` compound
(app.py line 47 and, after an initial `strip`, line 60). -/
def stripSemiStep (l : List Char) : List Char :=
  pyStrip (rstripP (fun c => c == ';') l)

/-- Does `l` start with `pat` (case-sensitive)?  Model of anchored literal
matching. -/
def startsWithL : List Char → List Char → Bool
  | [], _ => true
  | _ :: _, [] => false
  | p :: pat, c :: l => (c == p) && startsWithL pat l

/-- Does `l` start with `pat` case-insensitively (`pat` given lowercase)?
Model of `s.lower().startswith(pat)` and of `re.IGNORECASE` literal matching. -/
def startsWithLower : List Char → List Char → Bool
  | [], _ => true
  | _ :: _, [] => false
  | k :: kw, c :: l => (lowerChar c == k) && startsWithLower kw l

/-- Does `l` end with `pat` (case-sensitive)? -/
def endsWithL (pat l : List Char) : Bool := startsWithL pat.reverse l.reverse

/-- Does some character of `l` equal `a`?  Model of Python `a in s` and of the
`;` alternative of `DENY_PATTERN`. -/
def containsChar (a : Char) (l : List Char) : Bool := l.any fun c => c == a

/-- Does `pat` occur as a contiguous substring of `l` (case-sensitive)?
Model of the `--` alternative of `DENY_PATTERN`. -/
def containsSub (pat : List Char) : List Char → Bool
  | [] => startsWithL pat []
  | c :: rest => startsWithL pat (c :: rest) || containsSub pat rest

/-- After a case-insensitive match of `kw` at the head of `l`, is there a word
boundary (regex `\b`): end of string or a non-word character? -/
def boundAfter (kw l : List Char) : Bool :=
  match l.drop kw.length with
  | [] => true
  | c :: _ => !isWordChar c

/-- Case-insensitive match of the (lowercase, alphabetic) word `kw` at the head
of `l`, followed by a word boundary.  This is regex `kw\b` anchored at the
current position, as used both by `DENY_PATTERN` and by the `select\b` anchor. -/
def wordAtHead (kw l : List Char) : Bool :=
  startsWithLower kw l && boundAfter kw l

/-- Scan for a whole-word, case-insensitive occurrence of `kw` (regex
`\b kw \b` under `re.IGNORECASE`): `prevWord` records whether the character
just before the current position is a word character (initially false, the
start-of-string boundary). -/
def hasWordOccurAux (kw : List Char) (prevWord : Bool) : List Char → Bool
  | [] => false
  | c :: rest =>
      (!prevWord && wordAtHead kw (c :: rest)) ||
      hasWordOccurAux kw (isWordChar c) rest

/-- `kw` occurs in `l` as a whole word, case-insensitively. -/
def hasWordOccur (kw l : List Char) : Bool := hasWordOccurAux kw false l

/-! ## The Safety Gate (app.py lines 16-19 and 55-70) -/

/-- The deny-listed keywords of `DENY_PATTERN` (app.py lines 16-19). -/
def DENY_KEYWORDS : List (List Char) :=
  ["insert", "update", "delete", "drop", "truncate", "alter", "create",
   "grant", "revoke", "replace", "exec", "call", "copy", "vacuum"].map
    String.data

/-- `DENY_PATTERN.search(s) is not None`: the regex
`;|--|\b(insert|...|vacuum)\b` with `re.IGNORECASE` finds a match somewhere
in `l`. -/
def denyPatternSearch (l : List Char) : Bool :=
  containsChar ';' l || containsSub ['-', '-'] l ||
  DENY_KEYWORDS.any fun kw => hasWordOccur kw l

/-- The keyword `select` (lowercase), used by the gate's prefix check and by
the extractor's anchor regex. -/
def selectKw : List Char := ['s', 'e', 'l', 'e', 'c', 't']

/-- The value the gate actually checks: `sql_text.strip()` followed by
`s.rstrip(';').strip()` (app.py lines 58-60). -/
def gateTrim (l : List Char) : List Char := stripSemiStep (pyStrip l)

/-- Embedding of `is_sql_safe` (app.py lines 55-70) on character lists. -/
def is_sql_safeL (l : List Char) : Bool :=
  if l = [] then false
  else
    let s := gateTrim l
    if !startsWithLower selectKw s then false
    else if denyPatternSearch s then false
    else if containsChar ';' s then false
    else true

/-- `is_sql_safe` (app.py lines 55-70). -/
def is_sql_safe (sql_text : String) : Bool := is_sql_safeL sql_text.data

/-! ## The SQL Extractor/Normalizer (app.py lines 39-53) -/

/-- The three-backtick fence marker. -/
def bt3 : List Char := ['`', '`', '`']

/-- `re.sub(r"^```(?:sql)?\s*", "", t, flags=re.IGNORECASE)` (app.py line 44):
the pattern is anchored at the start, so at most the leading fence (with an
optional case-insensitive `sql` tag and following whitespace) is removed. -/
def openFenceSub (l : List Char) : List Char :=
  if startsWithL bt3 l then
    let r := l.drop 3
    if startsWithLower ['s', 'q', 'l'] r then lstripP pySpace (r.drop 3)
    else lstripP pySpace r
  else l

/-- Helper for `closeFenceSub`: remove a trailing `\s*``` ` anchored at the
very end of the string. -/
def closeFenceAtEnd (l : List Char) : List Char :=
  if endsWithL bt3 l then rstripP pySpace (l.reverse.drop 3).reverse else l

/-- `re.sub(r"\s*```$", "", t, flags=re.IGNORECASE)` (app.py line 45).
Python's `$` also matches just before a lone final newline, in which case the
newline itself is kept. -/
def closeFenceSub (l : List Char) : List Char :=
  match l.getLast? with
  | some c => if c == '\n' then closeFenceAtEnd l.dropLast ++ ['\n']
              else closeFenceAtEnd l
  | none => closeFenceAtEnd l

/-- `re.search(r"(select\b.*)", t, flags=re.IGNORECASE | re.DOTALL)`
(app.py line 49): the leftmost position where `select` matches
case-insensitively followed by a word boundary; with `DOTALL`, group 1 is the
whole remaining text. -/
def findSelect : List Char → Option (List Char)
  | [] => none
  | c :: rest =>
      if wordAtHead selectKw (c :: rest) then some (c :: rest)
      else findSelect rest

/-- Collapse Python's `\r\n` sequences to `\n` so that every line boundary is
a single character (first half of the `str.splitlines` model). -/
def normNewlines : List Char → List Char
  | [] => []
  | '\r' :: '\n' :: rest => '\n' :: normNewlines rest
  | c :: rest => c :: normNewlines rest

/-- Single-character line boundaries recognised by Python `str.splitlines`. -/
def isLineBound (c : Char) : Bool :=
  c == '\n' || c == '\r' || c == '\x0b' || c == '\x0c' ||
  c == '\x1c' || c == '\x1d' || c == '\x1e' || c == '\x85' ||
  c == '\u2028' || c == '\u2029'

/-- Split at single-character line boundaries; a trailing boundary does not
produce an extra empty line (Python `str.splitlines` behaviour). -/
def splitLinesN : List Char → List (List Char)
  | [] => []
  | c :: rest =>
      if isLineBound c then [] :: splitLinesN rest
      else
        match splitLinesN rest with
        | [] => [[c]]
        | ln :: lns => (c :: ln) :: lns

/-- Python `str.splitlines()`. -/
def pySplitlines (l : List Char) : List (List Char) :=
  splitLinesN (normNewlines l)

/-- Join chunks with single spaces (Python `" ".join(...)`). -/
def joinSpace : List (List Char) → List Char
  | [] => []
  | [x] => x
  | x :: y :: xs => x ++ ' ' :: joinSpace (y :: xs)

/-- `" ".join(line.strip() for line in candidate.splitlines() if line.strip())`
(app.py line 52). -/
def collapseLines (l : List Char) : List Char :=
  joinSpace (((pySplitlines l).map pyStrip).filter fun x => x ≠ [])

/-- The tail of `clean_sql_from_model` after the fence handling: strip the
trailing semicolons (app.py line 47), anchor at the first `select\b`
(lines 49-50), and collapse to one line (line 52). -/
def cleanRest (t : List Char) : List Char :=
  let t2 := stripSemiStep t
  let candidate :=
    match findSelect t2 with
    | some m => pyStrip m
    | none => t2
  collapseLines candidate

/-- Embedding of `clean_sql_from_model` (app.py lines 39-53) on character
lists: empty input short-circuits, then `strip`, the two fence substitutions
(the second followed by `strip`), and `cleanRest`. -/
def clean_sql_from_modelL (l : List Char) : List Char :=
  if l = [] then []
  else cleanRest (pyStrip (closeFenceSub (openFenceSub (pyStrip l))))

/-- `clean_sql_from_model` (app.py lines 39-53). -/
def clean_sql_from_model (text : String) : String :=
  ⟨clean_sql_from_modelL text.data⟩

/-! ## The Query Executor (app.py lines 85-94) -/

/-- The in-memory tabular Dataset (column names and string-rendered rows);
the executor treats it opaquely. -/
structure DataFrame where
  cols : List String
  rows : List (List String)
deriving DecidableEq

/-- Observable outcome of one `execute_sql_on_df` call.  `contextClosed`
records whether `con.close()` was executed before returning. -/
structure ExecResult where
  result : Option DataFrame
  err : Option String
  contextClosed : Bool
deriving DecidableEq

/-- Embedding of `execute_sql_on_df` (app.py lines 85-94).  `engine` models
`con.execute(sql_text).df()` on the connection in which `df` is registered as
`data`: it either returns a result table or raises an error message.  In the
source, `con.close()` (line 91) sits inside the `try` block after the
`execute` call, so it runs only on the success path; the `except` branch
(lines 93-94) returns `(None, str(e))` without closing the connection. -/
def execute_sql_on_df (engine : DataFrame → String → Except String DataFrame)
    (df : DataFrame) (sql_text : String) : ExecResult :=
  match engine df sql_text with
  | Except.ok r => { result := some r, err := none, contextClosed := true }
  | Except.error e => { result := none, err := some e, contextClosed := false }

/-! ## The Model Client (app.py lines 21-36) -/

/-- One element of the response's `choices` array: the chat-style nested
`message.content` field and the flat `text` field, each possibly absent. -/
structure Choice where
  message_content : Option String
  text : Option String
deriving DecidableEq

/-- The JSON body of a completion-service response. -/
structure ChatResponse where
  status : Nat
  choices : List Choice
deriving DecidableEq

/-- Outcome of `requests.post`: either the transport raises, or a response
(of any HTTP status) arrives. -/
inductive TransportOutcome where
  | failure (msg : String)
  | success (resp : ChatResponse)

/-- Embedding of `call_lmstudio_chat` (app.py lines 21-36).  `transport`
models `requests.post(API_CHAT, json=payload, timeout=timeout)` applied to
the prompt; `r.raise_for_status()` raises for status codes at or above 400;
then `data["choices"][0]["message"]["content"]` is attempted and, if any part
of that access fails, `data["choices"][0]["text"]` is the fallback, whose own
failure propagates as an error. -/
def call_lmstudio_chat (transport : String → TransportOutcome)
    (prompt : String) : Except String String :=
  match transport prompt with
  | TransportOutcome.failure m => Except.error m
  | TransportOutcome.success resp =>
      if 400 ≤ resp.status then
        Except.error ("HTTP error " ++ toString resp.status)
      else
        match resp.choices.head?.bind (fun c => c.message_content) with
        | some content => Except.ok content
        | none =>
            match resp.choices.head?.bind (fun c => c.text) with
            | some tx => Except.ok tx
            | none => Except.error "unparsable response"

/-! ## The Audit Log (app.py lines 97-98 and 160-168) -/

/-- One Audit Log record (the dictionary built at app.py lines 160-167). -/
structure QueryAttempt where
  id : Nat
  user_query : String
  generated_sql : String
  executed : Bool
  error_text : Option String
  created_at : String
deriving DecidableEq

/-- The log-entry construction of app.py lines 160-167: the id is
`len(st.session_state.history) + 1` and `executed` is `err is None`. -/
def log_entry (history : List QueryAttempt) (user_q generated_sql : String)
    (err : Option String) (created_at : String) : QueryAttempt :=
  { id := history.length + 1
    user_query := user_q
    generated_sql := generated_sql
    executed := err.isNone
    error_text := err
    created_at := created_at }

/-- How one user submission affects the history.  A service error (app.py
line 142) or a Safety Gate rejection (line 147) stops the script before the
logging code; a submission that reaches execution appends exactly one entry
(line 168), whether or not the SQL engine reported an error. -/
inductive SubmissionOutcome where
  | serviceError
  | safetyRejected
  | executedLog (user_q generated_sql : String) (err : Option String)
      (created_at : String)

/-- Effect of one submission on the session history. -/
def runSubmission (history : List QueryAttempt) :
    SubmissionOutcome → List QueryAttempt
  | SubmissionOutcome.serviceError => history
  | SubmissionOutcome.safetyRejected => history
  | SubmissionOutcome.executedLog q s e t => history ++ [log_entry history q s e t]

/-- The history produced by a sequence of submissions in one session,
starting from the empty history of app.py lines 97-98. -/
def runSession (subs : List SubmissionOutcome) : List QueryAttempt :=
  subs.foldl runSubmission []

/-! ## The Prompt Builder (app.py lines 126-132) -/

/-- Lowercase hex digit, for Python `repr` escapes. -/
def hexDigit (n : Nat) : Char :=
  if n < 10 then Char.ofNat (48 + n) else Char.ofNat (87 + n)

/-- Escape one character of a Python string `repr` using quote `q`
(ASCII model): backslash, the quote character, newline, carriage return and
tab get two-character escapes, other controls get `\xhh`. -/
def escapeIn (q : Char) (c : Char) : List Char :=
  if c == '\\' then ['\\', '\\']
  else if c == q then ['\\', q]
  else if c == '\n' then ['\\', 'n']
  else if c == '\r' then ['\\', 'r']
  else if c == '\t' then ['\\', 't']
  else if c.toNat < 32 || c.toNat == 127 then
    ['\\', 'x', hexDigit (c.toNat / 16), hexDigit (c.toNat % 16)]
  else [c]

/-- Python `repr` of a string (the `!r` conversion at app.py line 130, ASCII
model): single quotes by default, double quotes when the text contains a
single quote but no double quote. -/
def pyRepr (s : String) : String :=
  let hasSingle := s.data.any fun c => c == '\x27'
  let hasDouble := s.data.any fun c => c == '"'
  let q : Char := if hasSingle && !hasDouble then '"' else '\x27'
  ⟨q :: (s.data.map (escapeIn q)).flatten ++ [q]⟩

/-- The prompt f-string of app.py lines 126-132, as a function of the schema
descriptor and the (stripped) user request. -/
def build_prompt (schema_hint user_q : String) : String :=
  "You are an SQL writer for a single table named \x27data\x27 in PostgreSQL/DuckDB. Convert the user\x27s request into ONE valid SELECT SQL statement only. Use only this table. Return only the SELECT statement (no explanation, no trailing semicolon).\n\nSchema: "
  ++ schema_hint ++ "\n\nUser request: " ++ pyRepr user_q ++ "\nSQL:\n"

/-! ## Spec-side definitions used to state the corrected claims -/

/-- Modelled from the spec: the Safety-Gate/Extractor step 2/3 trim as the
claims word it — remove exactly ONE trailing statement-terminator character
when one is present.  (The source instead uses `rstrip(';')`, which removes
the whole trailing run; this definition exists only to compare the claims
against the code.) -/
def trimOneTrailingSemi (l : List Char) : List Char :=
  match l.reverse with
  | ';' :: rest => rest.reverse
  | _ => l

/-- Wrapping a raw model output in a fenced code block, with fence tag `tg`
on the opening fence (empty for a bare fence). -/
def fenceWrap (tg : List Char) (x : String) : String :=
  ⟨bt3 ++ tg ++ '\n' :: x.data ++ '\n' :: bt3⟩

/-! ## Helper lemmas: character classes -/

theorem space_not_word {c : Char} (h : pySpace c = true) : isWordChar c = false := by
  cases hw : isWordChar c with
  | false => rfl
  | true =>
    exfalso
    simp only [pySpace, Bool.or_eq_true, Nat.beq_eq_true_eq] at h
    simp only [isWordChar, Bool.or_eq_true, Bool.and_eq_true, decide_eq_true_eq,
      Nat.beq_eq_true_eq] at hw
    omega

theorem lower_alpha_word {c k : Char} (h1 : 97 ≤ k.toNat) (h2 : k.toNat ≤ 122)
    (h : lowerChar c = k) : isWordChar c = true := by
  unfold lowerChar at h
  by_cases hc : (65 ≤ c.toNat && c.toNat ≤ 90) = true
  · simp only [Bool.and_eq_true, decide_eq_true_eq] at hc
    simp only [isWordChar, Bool.or_eq_true, Bool.and_eq_true, decide_eq_true_eq]
    omega
  · rw [if_neg hc] at h
    subst h
    simp only [Bool.and_eq_true, decide_eq_true_eq, not_and, not_le] at hc
    simp only [isWordChar, Bool.or_eq_true, Bool.and_eq_true, decide_eq_true_eq]
    omega

theorem semi_not_word : isWordChar ';' = false := by decide

/-! ## Helper lemmas: strips -/

theorem head_dropWhile_not {p : Char → Bool} :
    ∀ {l : List Char} {c : Char} {r : List Char},
      List.dropWhile p l = c :: r → p c = false := by
  intro l
  induction l with
  | nil => intro c r h; cases h
  | cons x xs ih =>
    intro c r h
    rw [List.dropWhile_cons] at h
    by_cases hx : p x = true
    · rw [if_pos hx] at h; exact ih h
    · rw [if_neg hx] at h
      cases h
      simpa using hx

theorem dropWhile_dropWhile {p : Char → Bool} (l : List Char) :
    (l.dropWhile p).dropWhile p = l.dropWhile p := by
  cases hd : l.dropWhile p with
  | nil => rfl
  | cons c r =>
    have hc := head_dropWhile_not hd
    rw [List.dropWhile_cons, if_neg (by simp [hc])]

theorem lstripP_decomp (p : Char → Bool) (l : List Char) :
    ∃ a, l = a ++ lstripP p l ∧ ∀ c ∈ a, p c = true := by
  refine ⟨l.takeWhile p, ?_, ?_⟩
  · rw [lstripP, List.takeWhile_append_dropWhile]
  · intro c hc; exact List.mem_takeWhile_imp hc

theorem rstripP_decomp (p : Char → Bool) (l : List Char) :
    ∃ b, l = rstripP p l ++ b ∧ ∀ c ∈ b, p c = true := by
  refine ⟨(l.reverse.takeWhile p).reverse, ?_, ?_⟩
  · have h := congrArg List.reverse
      (List.takeWhile_append_dropWhile (p := p) (l := l.reverse))
    rw [List.reverse_append, List.reverse_reverse] at h
    exact h.symm
  · intro c hc
    rw [List.mem_reverse] at hc
    exact List.mem_takeWhile_imp hc

theorem rstripP_append_allp {p : Char → Bool} {b : List Char}
    (hb : ∀ c ∈ b, p c = true) (a : List Char) :
    rstripP p (a ++ b) = rstripP p a := by
  unfold rstripP
  rw [List.reverse_append, List.dropWhile_append]
  have hnil : b.reverse.dropWhile p = [] := by
    rw [List.dropWhile_eq_nil_iff]
    intro x hx
    exact hb x (List.mem_reverse.mp hx)
  rw [hnil]
  simp

theorem rstripP_append_of_ne_nil {p : Char → Bool} {b : List Char}
    (hb : rstripP p b ≠ []) (a : List Char) :
    rstripP p (a ++ b) = a ++ rstripP p b := by
  unfold rstripP at hb ⊢
  rw [List.reverse_append, List.dropWhile_append]
  have : (b.reverse.dropWhile p).isEmpty = false := by
    cases h : b.reverse.dropWhile p with
    | nil => exact absurd (by rw [h]; rfl) hb
    | cons c r => rfl
  rw [this]
  simp

theorem lstripP_cons_neg {p : Char → Bool} {c : Char} (hc : p c = false)
    (r : List Char) : lstripP p (c :: r) = c :: r := by
  rw [lstripP, List.dropWhile_cons, if_neg]
  rw [hc]
  simp

theorem rstripP_concat_neg {p : Char → Bool} {c : Char} (hc : p c = false)
    (m : List Char) : rstripP p (m ++ [c]) = m ++ [c] := by
  unfold rstripP
  rw [List.reverse_append]
  simp only [List.reverse_cons, List.reverse_nil, List.nil_append,
    List.cons_append, List.dropWhile_cons]
  rw [hc]
  simp

theorem rstripP_eq_nil_all {p : Char → Bool} {l : List Char}
    (h : rstripP p l = []) : ∀ c ∈ l, p c = true := by
  intro c hc
  unfold rstripP at h
  have : l.reverse.dropWhile p = [] := by
    cases hd : l.reverse.dropWhile p with
    | nil => rfl
    | cons x r => rw [hd] at h; simp at h
  rw [List.dropWhile_eq_nil_iff] at this
  exact this c (List.mem_reverse.mpr hc)

theorem rstripP_rstripP {p : Char → Bool} (l : List Char) :
    rstripP p (rstripP p l) = rstripP p l := by
  unfold rstripP
  rw [List.reverse_reverse, dropWhile_dropWhile]

theorem length_dropWhile_le {p : Char → Bool} :
    ∀ l : List Char, (List.dropWhile p l).length ≤ l.length := by
  intro l
  induction l with
  | nil => simp
  | cons x xs ih =>
    rw [List.dropWhile_cons]
    by_cases hx : p x = true
    · rw [if_pos hx]
      simp
      omega
    · rw [if_neg (by simp [hx])]

theorem lstripP_rstripP_fixed {p : Char → Bool} {m : List Char}
    (hm : m.dropWhile p = m) : lstripP p (rstripP p m) = rstripP p m := by
  cases h : rstripP p m with
  | nil => rfl
  | cons c r =>
    obtain ⟨b, hb, -⟩ := rstripP_decomp p m
    rw [h] at hb
    have hc : p c = false := by
      have := hm
      rw [hb, List.cons_append, List.dropWhile_cons] at this
      by_cases hpc : p c = true
      · rw [if_pos hpc] at this
        have hle := length_dropWhile_le (p := p) (r ++ b)
        rw [this] at hle
        simp at hle
      · simpa using hpc
    rw [lstripP_cons_neg hc]

theorem pyStrip_idem (l : List Char) : pyStrip (pyStrip l) = pyStrip l := by
  unfold pyStrip
  rw [lstripP_rstripP_fixed (m := lstripP pySpace l) (dropWhile_dropWhile l),
    rstripP_rstripP]

/-! ## Helper lemmas: whole-word matching under end trimming -/

theorem wordAtHead_cons_nonword {kw : List Char} {c : Char} {r : List Char}
    (hkw : kw ≠ []) (hlower : ∀ x ∈ kw, 97 ≤ x.toNat ∧ x.toNat ≤ 122)
    (hc : isWordChar c = false) : wordAtHead kw (c :: r) = false := by
  cases kw with
  | nil => exact absurd rfl hkw
  | cons k kw' =>
    unfold wordAtHead
    cases hlc : lowerChar c == k with
    | false => simp [startsWithLower, hlc]
    | true =>
      exfalso
      have heq : lowerChar c = k := by simpa using hlc
      have hk := hlower k (List.mem_cons_self k kw')
      have hw := lower_alpha_word hk.1 hk.2 heq
      rw [hw] at hc
      cases hc

theorem hasWordOccurAux_all_nonword {kw : List Char} (hkw : kw ≠ [])
    (hlower : ∀ x ∈ kw, 97 ≤ x.toNat ∧ x.toNat ≤ 122) :
    ∀ (l : List Char), (∀ c ∈ l, isWordChar c = false) → ∀ p,
      hasWordOccurAux kw p l = false := by
  intro l
  induction l with
  | nil => intro _ _; rfl
  | cons c rest ih =>
    intro h p
    have hc := h c (List.mem_cons_self c rest)
    unfold hasWordOccurAux
    rw [wordAtHead_cons_nonword hkw hlower hc, hc]
    simp only [Bool.and_false, Bool.false_or]
    exact ih (fun x hx => h x (List.mem_cons_of_mem _ hx)) false

theorem startsWithLower_append_nonword {suf : List Char}
    (hsuf : ∀ c ∈ suf, isWordChar c = false) :
    ∀ (kw m : List Char), (∀ x ∈ kw, 97 ≤ x.toNat ∧ x.toNat ≤ 122) →
      startsWithLower kw (m ++ suf) = startsWithLower kw m := by
  intro kw
  induction kw with
  | nil => intro m _; rfl
  | cons k kw' ih =>
    intro m hlower
    cases m with
    | nil =>
      rw [List.nil_append]
      cases suf with
      | nil => rfl
      | cons c s' =>
        cases hlc : lowerChar c == k with
        | false => simp [startsWithLower, hlc]
        | true =>
          exfalso
          have heq : lowerChar c = k := by simpa using hlc
          have hk := hlower k (List.mem_cons_self k kw')
          have hw := lower_alpha_word hk.1 hk.2 heq
          have := hsuf c (List.mem_cons_self c s')
          rw [hw] at this
          cases this
    | cons c m' =>
      simp only [List.cons_append, startsWithLower, List.append_eq]
      rw [ih m' (fun x hx => hlower x (List.mem_cons_of_mem _ hx))]

theorem startsWithLower_length :
    ∀ {kw l : List Char}, startsWithLower kw l = true → kw.length ≤ l.length := by
  intro kw
  induction kw with
  | nil => intro l _; simp
  | cons k kw' ih =>
    intro l h
    cases l with
    | nil => cases h
    | cons c l' =>
      simp only [startsWithLower, Bool.and_eq_true] at h
      have := ih h.2
      simp only [List.length_cons]
      omega

theorem boundAfter_append_nonword {kw m suf : List Char}
    (hsuf : ∀ c ∈ suf, isWordChar c = false)
    (hlen : kw.length ≤ m.length) :
    boundAfter kw (m ++ suf) = boundAfter kw m := by
  unfold boundAfter
  rw [List.drop_append_of_le_length hlen]
  cases hd : m.drop kw.length with
  | nil =>
    rw [List.nil_append]
    cases suf with
    | nil => rfl
    | cons c s' =>
      have := hsuf c (List.mem_cons_self c s')
      simp [this]
  | cons d rest => rfl

theorem wordAtHead_append_nonword {kw m suf : List Char}
    (hlower : ∀ x ∈ kw, 97 ≤ x.toNat ∧ x.toNat ≤ 122)
    (hsuf : ∀ c ∈ suf, isWordChar c = false) :
    wordAtHead kw (m ++ suf) = wordAtHead kw m := by
  unfold wordAtHead
  rw [startsWithLower_append_nonword hsuf kw m hlower]
  cases hs : startsWithLower kw m with
  | false => simp
  | true =>
    rw [boundAfter_append_nonword hsuf (startsWithLower_length hs)]

theorem hasWordOccurAux_append_nonword_right {kw suf : List Char}
    (hkw : kw ≠ []) (hlower : ∀ x ∈ kw, 97 ≤ x.toNat ∧ x.toNat ≤ 122)
    (hsuf : ∀ c ∈ suf, isWordChar c = false) :
    ∀ (a : List Char) (p : Bool),
      hasWordOccurAux kw p (a ++ suf) = hasWordOccurAux kw p a := by
  intro a
  induction a with
  | nil =>
    intro p
    rw [List.nil_append]
    rw [hasWordOccurAux_all_nonword hkw hlower suf hsuf p]
    rfl
  | cons c a' ih =>
    intro p
    simp only [List.cons_append, hasWordOccurAux, List.append_eq]
    rw [show c :: (a' ++ suf) = (c :: a') ++ suf from rfl,
      wordAtHead_append_nonword hlower hsuf, ih (isWordChar c)]

theorem hasWordOccurAux_append_nonword_left {kw : List Char}
    (hkw : kw ≠ []) (hlower : ∀ x ∈ kw, 97 ≤ x.toNat ∧ x.toNat ≤ 122) :
    ∀ (pre b : List Char), (∀ c ∈ pre, isWordChar c = false) →
      hasWordOccurAux kw false (pre ++ b) = hasWordOccurAux kw false b := by
  intro pre
  induction pre with
  | nil => intro b _; rfl
  | cons c pre' ih =>
    intro b h
    have hc := h c (List.mem_cons_self c pre')
    simp only [List.cons_append, hasWordOccurAux, List.append_eq]
    rw [wordAtHead_cons_nonword hkw hlower hc, hc]
    simp only [Bool.and_false, Bool.false_or]
    exact ih b (fun x hx => h x (List.mem_cons_of_mem _ hx))

/-! ## Helper lemmas: the gate trim decomposition and transfer -/

theorem gateTrim_decomp (l : List Char) :
    ∃ pre suf, l = pre ++ (gateTrim l ++ suf) ∧ (∀ c ∈ pre, pySpace c = true) ∧
      (∀ c ∈ suf, pySpace c = true ∨ c = ';') := by
  obtain ⟨a1, h1, ha1⟩ := lstripP_decomp pySpace l
  obtain ⟨b1, h2, hb1⟩ := rstripP_decomp pySpace (lstripP pySpace l)
  obtain ⟨b2, h3, hb2⟩ :=
    rstripP_decomp (fun c => c == ';') (pyStrip l)
  obtain ⟨a2, h4, ha2⟩ :=
    lstripP_decomp pySpace (rstripP (fun c => c == ';') (pyStrip l))
  obtain ⟨b3, h5, hb3⟩ :=
    rstripP_decomp pySpace
      (lstripP pySpace (rstripP (fun c => c == ';') (pyStrip l)))
  have h2' : lstripP pySpace l = pyStrip l ++ b1 := h2
  have h5' :
      lstripP pySpace (rstripP (fun c => c == ';') (pyStrip l)) =
        gateTrim l ++ b3 := h5
  refine ⟨a1 ++ a2, b3 ++ b2 ++ b1, ?_, ?_, ?_⟩
  · calc l = a1 ++ lstripP pySpace l := h1
      _ = a1 ++ (pyStrip l ++ b1) := by rw [h2']
      _ = a1 ++ ((rstripP (fun c => c == ';') (pyStrip l) ++ b2) ++ b1) := by
          rw [← h3]
      _ = a1 ++
          (((a2 ++
            lstripP pySpace (rstripP (fun c => c == ';') (pyStrip l))) ++ b2)
            ++ b1) := by rw [← h4]
      _ = a1 ++ (((a2 ++ (gateTrim l ++ b3)) ++ b2) ++ b1) := by rw [h5']
      _ = (a1 ++ a2) ++ (gateTrim l ++ (b3 ++ b2 ++ b1)) := by
          simp [List.append_assoc]
  · intro c hc
    rcases List.mem_append.mp hc with h | h
    · exact ha1 c h
    · exact ha2 c h
  · intro c hc
    rcases List.mem_append.mp hc with h | h
    · rcases List.mem_append.mp h with h' | h'
      · exact Or.inl (hb3 c h')
      · right
        have := hb2 c h'
        simpa using this
    · exact Or.inl (hb1 c h)

theorem nonword_of_sufcond {suf : List Char}
    (hsuf : ∀ c ∈ suf, pySpace c = true ∨ c = ';') :
    ∀ c ∈ suf, isWordChar c = false := by
  intro c hc
  rcases hsuf c hc with h | h
  · exact space_not_word h
  · rw [h]; exact semi_not_word

theorem hasWordOccur_gateTrim {kw : List Char} (hkw : kw ≠ [])
    (hlower : ∀ x ∈ kw, 97 ≤ x.toNat ∧ x.toNat ≤ 122) (l : List Char) :
    hasWordOccur kw (gateTrim l) = hasWordOccur kw l := by
  obtain ⟨pre, suf, heq, hpre, hsuf⟩ := gateTrim_decomp l
  have hpre' : ∀ c ∈ pre, isWordChar c = false :=
    fun c hc => space_not_word (hpre c hc)
  have hsuf' := nonword_of_sufcond hsuf
  unfold hasWordOccur
  conv_rhs => rw [heq]
  rw [hasWordOccurAux_append_nonword_left hkw hlower pre _ hpre',
    hasWordOccurAux_append_nonword_right hkw hlower hsuf' (gateTrim l) false]

theorem containsChar_append (a : Char) (x y : List Char) :
    containsChar a (x ++ y) = (containsChar a x || containsChar a y) := by
  simp [containsChar]

theorem containsChar_gateTrim_false {a : Char} {l : List Char}
    (h : containsChar a l = false) : containsChar a (gateTrim l) = false := by
  obtain ⟨pre, suf, heq, -, -⟩ := gateTrim_decomp l
  rw [heq, containsChar_append, containsChar_append] at h
  simp only [Bool.or_eq_false_iff] at h
  exact h.2.1

theorem startsWithL_append_right {pat : List Char} :
    ∀ {l : List Char}, startsWithL pat l = true → ∀ m,
      startsWithL pat (l ++ m) = true := by
  induction pat with
  | nil => intro l _ m; rfl
  | cons p pat' ih =>
    intro l h m
    cases l with
    | nil => cases h
    | cons c l' =>
      simp only [startsWithL, Bool.and_eq_true] at h
      simp only [List.cons_append, startsWithL, Bool.and_eq_true]
      exact ⟨h.1, ih h.2 m⟩

theorem containsSub_nil_pat : ∀ l : List Char, containsSub [] l = true := by
  intro l
  cases l with
  | nil => rfl
  | cons c r => simp [containsSub, startsWithL]

theorem containsSub_append_right {pat : List Char} :
    ∀ {a : List Char}, containsSub pat a = true → ∀ b,
      containsSub pat (a ++ b) = true := by
  intro a
  induction a with
  | nil =>
    intro h b
    cases pat with
    | nil => exact containsSub_nil_pat b
    | cons p pat' => cases h
  | cons c a' ih =>
    intro h b
    simp only [containsSub, Bool.or_eq_true] at h
    simp only [List.cons_append, containsSub, Bool.or_eq_true]
    rcases h with h | h
    · exact Or.inl (startsWithL_append_right h b)
    · exact Or.inr (ih h b)

theorem containsSub_append_left {pat b : List Char}
    (h : containsSub pat b = true) : ∀ a, containsSub pat (a ++ b) = true := by
  intro a
  induction a with
  | nil => exact h
  | cons c a' ih =>
    simp only [List.cons_append, containsSub, Bool.or_eq_true]
    exact Or.inr ih

theorem containsSub_gateTrim_false {pat l : List Char}
    (h : containsSub pat l = false) : containsSub pat (gateTrim l) = false := by
  obtain ⟨pre, suf, heq, -, -⟩ := gateTrim_decomp l
  cases hc : containsSub pat (gateTrim l) with
  | false => rfl
  | true =>
    exfalso
    have := containsSub_append_left (containsSub_append_right hc suf) pre
    rw [← heq] at this
    rw [this] at h
    cases h

theorem selectKw_lower : ∀ x ∈ selectKw, 97 ≤ x.toNat ∧ x.toNat ≤ 122 := by decide

theorem startsWithLower_select_gateTrim {l : List Char}
    (h : startsWithLower selectKw l = true) :
    startsWithLower selectKw (gateTrim l) = true := by
  obtain ⟨pre, suf, heq, hpre, hsuf⟩ := gateTrim_decomp l
  have hsuf' := nonword_of_sufcond hsuf
  cases pre with
  | nil =>
    rw [heq, List.nil_append] at h
    rwa [startsWithLower_append_nonword hsuf' selectKw (gateTrim l)
      selectKw_lower] at h
  | cons c pre' =>
    exfalso
    rw [heq] at h
    simp only [List.cons_append, selectKw, startsWithLower, Bool.and_eq_true]
      at h
    have heqc : lowerChar c = 's' := by simpa using h.1
    have hw := lower_alpha_word (by decide) (by decide) heqc
    have := space_not_word (hpre c (List.mem_cons_self c pre'))
    rw [this] at hw
    cases hw

theorem deny_kw_ok : ∀ kw ∈ DENY_KEYWORDS,
    kw ≠ [] ∧ ∀ x ∈ kw, 97 ≤ x.toNat ∧ x.toNat ≤ 122 := by decide

theorem startsWithLower_ne_nil {kw l : List Char} (hkw : kw ≠ [])
    (h : startsWithLower kw l = true) : l ≠ [] := by
  intro hl
  subst hl
  cases kw with
  | nil => exact hkw rfl
  | cons k kw' => cases h

theorem hasWordOccur_ne_nil {kw l : List Char}
    (h : hasWordOccur kw l = true) : l ≠ [] := by
  intro hl
  subst hl
  cases h

theorem is_sql_safeL_true_iff (l : List Char) :
    is_sql_safeL l = true ↔
      l ≠ [] ∧ startsWithLower selectKw (gateTrim l) = true ∧
      denyPatternSearch (gateTrim l) = false ∧
      containsChar ';' (gateTrim l) = false := by
  unfold is_sql_safeL
  by_cases hl : l = []
  · simp [hl]
  · rw [if_neg hl]
    cases h1 : startsWithLower selectKw (gateTrim l) <;>
      cases h2 : denyPatternSearch (gateTrim l) <;>
        cases h3 : containsChar ';' (gateTrim l) <;>
          simp [hl, h1, h2, h3]

/-! ## Claim C3 -/

/-- C3: for every candidate that begins with any case variant of `select` and
contains no deny-listed keyword as a whole word, no line-comment marker `--`,
and no statement terminator `;`, the Safety Gate returns safe; and for every
candidate containing a deny-listed keyword as a whole word
(case-insensitively), it returns unsafe, even if `select` appears elsewhere. -/
theorem C3_deny_list_and_select_gate (s : String) :
    ((startsWithLower selectKw s.data = true ∧
      (∀ kw ∈ DENY_KEYWORDS, hasWordOccur kw s.data = false) ∧
      containsSub ['-', '-'] s.data = false ∧
      containsChar ';' s.data = false) →
      is_sql_safe s = true) ∧
    (∀ kw ∈ DENY_KEYWORDS, hasWordOccur kw s.data = true →
      is_sql_safe s = false) := by
  constructor
  · rintro ⟨hsel, hkw, hdash, hsemi⟩
    rw [is_sql_safe, is_sql_safeL_true_iff]
    refine ⟨startsWithLower_ne_nil (by decide) hsel,
      startsWithLower_select_gateTrim hsel, ?_,
      containsChar_gateTrim_false hsemi⟩
    simp only [denyPatternSearch, Bool.or_eq_false_iff]
    refine ⟨⟨containsChar_gateTrim_false hsemi,
      containsSub_gateTrim_false hdash⟩, ?_⟩
    simp only [List.any_eq_false]
    intro kw hmem
    obtain ⟨hne, hlow⟩ := deny_kw_ok kw hmem
    rw [hasWordOccur_gateTrim hne hlow]
    simp [hkw kw hmem]
  · intro kw hmem hocc
    obtain ⟨hne, hlow⟩ := deny_kw_ok kw hmem
    have hdeny : denyPatternSearch (gateTrim s.data) = true := by
      simp only [denyPatternSearch, Bool.or_eq_true]
      refine Or.inr ?_
      simp only [List.any_eq_true]
      exact ⟨kw, hmem, by rw [hasWordOccur_gateTrim hne hlow]; exact hocc⟩
    have hnil : s.data ≠ [] := hasWordOccur_ne_nil hocc
    cases hres : is_sql_safe s with
    | false => rfl
    | true =>
      exfalso
      rw [is_sql_safe, is_sql_safeL_true_iff] at hres
      rw [hres.2.2.1] at hdeny
      cases hdeny

/-- Witness for C3 at concrete inputs: a clean SELECT is accepted, and a
statement containing the deny keyword `drop` is rejected. -/
theorem C3_witness :
    is_sql_safe "SELECT x FROM data" = true ∧
    is_sql_safe "DROP TABLE data" = false :=
  ⟨(C3_deny_list_and_select_gate "SELECT x FROM data").1
      ⟨by decide, by decide, by decide, by decide⟩,
   (C3_deny_list_and_select_gate "DROP TABLE data").2
      ("drop".data) (by decide) (by decide)⟩

/-! ## Claim C2 -/

/-- C2 counterexample: the gate does NOT trim exactly one trailing terminator:
on `SELECT 1;;`, trimming exactly one leaves a terminator in the candidate,
yet the gate (which strips the whole trailing run) reports it safe. -/
theorem C2_cex :
    is_sql_safe "SELECT 1;;" = true ∧
    containsChar ';' (trimOneTrailingSemi "SELECT 1;;".data) = true := by
  constructor
  · decide
  · decide

/-- C2 (amended): the gate trims ALL trailing statement-terminator characters
(with surrounding whitespace); any candidate whose trimmed form still contains
a terminator anywhere is unsafe, and in particular
`SELECT * FROM data; DROP TABLE data` is rejected. -/
theorem C2_gate_rejects_embedded_terminator (s : String) :
    (containsChar ';' (gateTrim s.data) = true → is_sql_safe s = false) ∧
    is_sql_safe "SELECT * FROM data; DROP TABLE data" = false := by
  constructor
  · intro h
    cases hres : is_sql_safe s with
    | false => rfl
    | true =>
      exfalso
      rw [is_sql_safe, is_sql_safeL_true_iff] at hres
      rw [hres.2.2.2] at h
      cases h
  · decide

/-- Witness for C2: a candidate with a mid-string terminator surviving the
trim is rejected. -/
theorem C2_witness : is_sql_safe "SELECT 1; DROP TABLE data" = false :=
  (C2_gate_rejects_embedded_terminator "SELECT 1; DROP TABLE data").1
    (by decide)

/-! ## Claim C6 -/

/-- C6 counterexample: a candidate that does not itself begin with `select`
(it begins with a space) is nevertheless accepted by the gate, because the
gate checks the prefix only after stripping. -/
theorem C6_cex :
    is_sql_safe " SELECT 1" = true ∧
    startsWithLower selectKw " SELECT 1".data = false := by
  constructor
  · decide
  · decide

/-- C6 (amended): the gate returns unsafe for every candidate that is empty
after trimming and for every candidate whose TRIMMED form (whitespace and
trailing terminators removed) does not begin case-insensitively with
`select`; in particular `UPDATE data SET x=1` is rejected. -/
theorem C6_empty_or_no_select_start (s : String) :
    (pyStrip s.data = [] → is_sql_safe s = false) ∧
    (startsWithLower selectKw (gateTrim s.data) = false →
      is_sql_safe s = false) ∧
    is_sql_safe "UPDATE data SET x=1" = false := by
  have main : startsWithLower selectKw (gateTrim s.data) = false →
      is_sql_safe s = false := by
    intro h
    cases hres : is_sql_safe s with
    | false => rfl
    | true =>
      exfalso
      rw [is_sql_safe, is_sql_safeL_true_iff] at hres
      rw [hres.2.1] at h
      cases h
  refine ⟨?_, main, by decide⟩
  intro h
  apply main
  have : gateTrim s.data = [] := by
    rw [gateTrim, h]
    rfl
  rw [this]
  rfl

/-- Witness for C6: the all-whitespace candidate and an all-semicolon
candidate are both rejected. -/
theorem C6_witness : is_sql_safe "   " = false :=
  (C6_empty_or_no_select_start "   ").1 (by decide)

/-! ## Claim C10 -/

/-- C10: the deny matching is quote-unaware: the pure single-statement SELECT
`SELECT * FROM data WHERE name = 'drop'` (keyword only inside a string
literal, `select` prefix present, no terminator anywhere) is marked unsafe. -/
theorem C10_quote_unaware_deny :
    is_sql_safe "SELECT * FROM data WHERE name = \x27drop\x27" = false ∧
    startsWithLower selectKw
      "SELECT * FROM data WHERE name = \x27drop\x27".data = true ∧
    containsChar ';' "SELECT * FROM data WHERE name = \x27drop\x27".data =
      false := by
  refine ⟨by decide, by decide, by decide⟩

/-! ## Claim C5 -/

theorem endsWithL_rstripP_single (c0 : Char) (l : List Char) :
    endsWithL [c0] (rstripP (fun c => c == c0) l) = false := by
  unfold endsWithL rstripP
  rw [List.reverse_reverse]
  cases hd : l.reverse.dropWhile (fun c => c == c0) with
  | nil => rfl
  | cons c r =>
    have hc := head_dropWhile_not hd
    simp [startsWithL, hc]

/-- C5 counterexample: the extractor step `t.rstrip(';').strip()` does not
remove exactly one trailing terminator: on `select 1;;` it removes both,
while the claimed one-terminator trim would keep one. -/
theorem C5_cex :
    stripSemiStep "select 1;;".data ≠ trimOneTrailingSemi "select 1;;".data ∧
    stripSemiStep "select 1;;".data = "select 1".data ∧
    trimOneTrailingSemi "select 1;;".data = "select 1;".data := by
  refine ⟨by decide, by decide, by decide⟩

/-- C5 (amended): before the SELECT anchor is located, the extractor removes
the MAXIMAL trailing run of statement-terminator characters (then trims
whitespace): the `rstrip` never leaves a trailing terminator, and a text
ending in two terminators keeps none. -/
theorem C5_strip_all_trailing_terminators :
    (∀ t : String,
      endsWithL [';'] (rstripP (fun c => c == ';') t.data) = false) ∧
    clean_sql_from_model "select 1;;" = "select 1" := by
  refine ⟨fun t => endsWithL_rstripP_single ';' t.data, by decide⟩

/-! ## Claim C1 -/

/-- A small concrete Dataset: columns `(id, name)` with three rows. -/
def demoDf : DataFrame :=
  { cols := ["id", "name"], rows := [["1", "a"], ["2", "b"], ["3", "c"]] }

/-- An engine behaviour in which the SQL engine raises (e.g. the approved
statement references the nonexistent column `ghost`). -/
def ghostEngine : DataFrame → String → Except String DataFrame :=
  fun _ _ => Except.error "Binder Error: column ghost not found"

/-- An engine behaviour in which execution succeeds. -/
def okEngine : DataFrame → String → Except String DataFrame :=
  fun df _ => Except.ok df

/-- C1 evaluation: when the engine raises, `execute_sql_on_df` returns the
error text WITHOUT having closed its execution context (`con.close()` sits
inside the `try` block and is skipped by the `except` path); on success the
context is closed.  This contradicts the claim that teardown is
unconditional. -/
theorem C1_executor_no_teardown_on_error :
    (execute_sql_on_df ghostEngine demoDf
      "SELECT ghost FROM data").contextClosed = false ∧
    (execute_sql_on_df ghostEngine demoDf "SELECT ghost FROM data").err =
      some "Binder Error: column ghost not found" ∧
    (execute_sql_on_df okEngine demoDf
      "SELECT id FROM data").contextClosed = true := by
  refine ⟨rfl, rfl, rfl⟩

/-! ## Claim C7 -/

/-- C7: the Model Client tries the chat-style nested field first, falls back
to the flat text field only when the nested one is absent, and errors on
transport failure, non-success status, or when neither shape yields text. -/
theorem C7_response_shapes_and_errors :
    (∀ (tr : String → TransportOutcome) (p : String) (resp : ChatResponse)
        (c : Choice) (sc : String),
      tr p = TransportOutcome.success resp → resp.status < 400 →
      resp.choices.head? = some c → c.message_content = some sc →
      call_lmstudio_chat tr p = Except.ok sc) ∧
    (∀ (tr : String → TransportOutcome) (p : String) (resp : ChatResponse)
        (c : Choice) (sc : String),
      tr p = TransportOutcome.success resp → resp.status < 400 →
      resp.choices.head? = some c → c.message_content = none →
      c.text = some sc → call_lmstudio_chat tr p = Except.ok sc) ∧
    (∀ (tr : String → TransportOutcome) (p m : String),
      tr p = TransportOutcome.failure m →
      call_lmstudio_chat tr p = Except.error m) ∧
    (∀ (tr : String → TransportOutcome) (p : String) (resp : ChatResponse),
      tr p = TransportOutcome.success resp → 400 ≤ resp.status →
      call_lmstudio_chat tr p =
        Except.error ("HTTP error " ++ toString resp.status)) ∧
    (∀ (tr : String → TransportOutcome) (p : String) (resp : ChatResponse),
      tr p = TransportOutcome.success resp → resp.status < 400 →
      (resp.choices.head?.bind fun c => c.message_content) = none →
      (resp.choices.head?.bind fun c => c.text) = none →
      call_lmstudio_chat tr p = Except.error "unparsable response") := by
  refine ⟨?_, ?_, ?_, ?_, ?_⟩
  · intro tr p resp c sc htr hst hc hmc
    unfold call_lmstudio_chat
    rw [htr]
    dsimp only
    rw [if_neg (by omega), hc]
    simp [hmc]
  · intro tr p resp c sc htr hst hc hmc htx
    unfold call_lmstudio_chat
    rw [htr]
    dsimp only
    rw [if_neg (by omega), hc]
    simp [hmc, htx]
  · intro tr p m htr
    unfold call_lmstudio_chat
    rw [htr]
  · intro tr p resp htr hst
    unfold call_lmstudio_chat
    rw [htr]
    dsimp only
    rw [if_pos hst]
  · intro tr p resp htr hst hmc htx
    unfold call_lmstudio_chat
    rw [htr]
    dsimp only
    rw [if_neg (by omega), hmc, htx]

/-- A concrete transport returning a 200 response in the older flat shape. -/
def demoTransport : String → TransportOutcome :=
  fun _ => TransportOutcome.success
    { status := 200,
      choices := [{ message_content := none, text := some "SELECT 1" }] }

/-- Witness for C7: the fallback extraction succeeds on the flat shape. -/
theorem C7_witness :
    call_lmstudio_chat demoTransport "prompt" = Except.ok "SELECT 1" :=
  C7_response_shapes_and_errors.2.1 demoTransport "prompt"
    { status := 200,
      choices := [{ message_content := none, text := some "SELECT 1" }] }
    { message_content := none, text := some "SELECT 1" }
    "SELECT 1" rfl (by decide) rfl rfl rfl

/-! ## Claim C8 -/

theorem historyOk_runSubmission {h : List QueryAttempt}
    (hh : ∀ i (hi : i < h.length), (h.get ⟨i, hi⟩).id = i + 1 ∧
      ((h.get ⟨i, hi⟩).executed = true ↔ (h.get ⟨i, hi⟩).error_text = none))
    (sub : SubmissionOutcome) :
    ∀ i (hi : i < (runSubmission h sub).length),
      ((runSubmission h sub).get ⟨i, hi⟩).id = i + 1 ∧
      (((runSubmission h sub).get ⟨i, hi⟩).executed = true ↔
        ((runSubmission h sub).get ⟨i, hi⟩).error_text = none) := by
  cases sub with
  | serviceError => exact hh
  | safetyRejected => exact hh
  | executedLog q sql e t =>
    intro i hi
    simp only [runSubmission] at hi ⊢
    by_cases hlt : i < h.length
    · have e1 : (h ++ [log_entry h q sql e t]).get ⟨i, hi⟩ = h.get ⟨i, hlt⟩ := by
        rw [List.get_eq_getElem, List.get_eq_getElem]
        exact List.getElem_append_left hlt
      rw [e1]
      exact hh i hlt
    · have hieq : i = h.length := by
        simp only [List.length_append, List.length_cons, List.length_nil] at hi
        omega
      subst hieq
      have e1 : (h ++ [log_entry h q sql e t]).get ⟨h.length, hi⟩ =
          log_entry h q sql e t := by
        rw [List.get_eq_getElem]
        rw [List.getElem_append_right (le_refl h.length)]
        simp
      rw [e1]
      refine ⟨by simp [log_entry], ?_⟩
      simp [log_entry, Option.isNone_iff_eq_none]

theorem historyOk_foldl :
    ∀ (subs : List SubmissionOutcome) (h : List QueryAttempt),
      (∀ i (hi : i < h.length), (h.get ⟨i, hi⟩).id = i + 1 ∧
        ((h.get ⟨i, hi⟩).executed = true ↔
          (h.get ⟨i, hi⟩).error_text = none)) →
      ∀ i (hi : i < (subs.foldl runSubmission h).length),
        ((subs.foldl runSubmission h).get ⟨i, hi⟩).id = i + 1 ∧
        (((subs.foldl runSubmission h).get ⟨i, hi⟩).executed = true ↔
          ((subs.foldl runSubmission h).get ⟨i, hi⟩).error_text = none) := by
  intro subs
  induction subs with
  | nil => intro h hh; exact hh
  | cons sub rest ih =>
    intro h hh
    exact ih (runSubmission h sub) (historyOk_runSubmission hh sub)

/-- C8: after any sequence of submissions, every Audit Log entry has
`executed = true` exactly when its error text is absent, and the ids are
exactly `1, 2, 3, ...` in submission order (position `i` holds id `i + 1`),
regardless of which submissions succeeded, failed, or were rejected before
logging. -/
theorem C8_audit_log_invariant (subs : List SubmissionOutcome) (i : Nat)
    (hi : i < (runSession subs).length) :
    ((runSession subs).get ⟨i, hi⟩).id = i + 1 ∧
    (((runSession subs).get ⟨i, hi⟩).executed = true ↔
      ((runSession subs).get ⟨i, hi⟩).error_text = none) :=
  historyOk_foldl subs []
    (fun _ hi => absurd hi (by simp)) i hi

/-- A concrete session: a logged success, an unlogged safety rejection, and a
logged execution failure. -/
def demoSubs : List SubmissionOutcome :=
  [SubmissionOutcome.executedLog "q1" "SELECT 1" none "t1",
   SubmissionOutcome.safetyRejected,
   SubmissionOutcome.executedLog "q2" "SELECT ghost FROM data"
     (some "Binder Error") "t2"]

/-- Witness for C8 on the concrete session: the second logged entry has id 2
and `executed = false` with an error present. -/
theorem C8_witness :
    ((runSession demoSubs).get ⟨1, by decide⟩).id = 2 ∧
    (((runSession demoSubs).get ⟨1, by decide⟩).executed = true ↔
      ((runSession demoSubs).get ⟨1, by decide⟩).error_text = none) :=
  C8_audit_log_invariant demoSubs 1 (by decide)

/-! ## Claim C9 -/

/-- C9: the Prompt Builder is a pure function of the schema descriptor and the
user request — two runs on identical inputs give byte-identical prompts. -/
theorem C9_prompt_builder_deterministic (s1 q1 s2 q2 : String)
    (hs : s1 = s2) (hq : q1 = q2) :
    build_prompt s1 q1 = build_prompt s2 q2 := by rw [hs, hq]

/-- Witness for C9 at a concrete schema descriptor and request. -/
theorem C9_witness :
    build_prompt "data(id (int64), name (object))" "show all rows" =
      build_prompt "data(id (int64), name (object))" "show all rows" :=
  C9_prompt_builder_deterministic _ _ _ _ rfl rfl

/-! ## Helper lemmas: fence wrapping (claim C4) -/

theorem pyStrip_fenceWrap (tg l : List Char) :
    pyStrip (bt3 ++ tg ++ '\n' :: l ++ '\n' :: bt3) =
      bt3 ++ tg ++ '\n' :: l ++ '\n' :: bt3 := by
  have hw : bt3 ++ tg ++ '\n' :: l ++ '\n' :: bt3 =
      '`' :: ('`' :: '`' :: (tg ++ '\n' :: l ++ '\n' :: bt3)) := by
    simp [bt3]
  have hw2 : bt3 ++ tg ++ '\n' :: l ++ '\n' :: bt3 =
      (bt3 ++ tg ++ '\n' :: l ++ ['\n', '`', '`']) ++ ['`'] := by
    simp [bt3]
  unfold pyStrip
  rw [hw, lstripP_cons_neg (by decide), ← hw, hw2,
    rstripP_concat_neg (by decide), ← hw2]

theorem openFenceSub_fenceWrap (tg l : List Char)
    (htg : tg = [] ∨ tg.map lowerChar = ['s', 'q', 'l']) :
    openFenceSub (bt3 ++ tg ++ '\n' :: l ++ '\n' :: bt3) =
      lstripP pySpace (l ++ '\n' :: bt3) := by
  have hw : bt3 ++ tg ++ '\n' :: l ++ '\n' :: bt3 =
      '`' :: '`' :: '`' :: (tg ++ ('\n' :: (l ++ '\n' :: bt3))) := by
    simp [bt3]
  unfold openFenceSub
  rw [hw, if_pos (by simp [startsWithL, bt3])]
  simp only [List.drop_succ_cons, List.drop_zero]
  rcases htg with h | h
  · subst h
    rw [List.nil_append,
      if_neg (by simp [startsWithLower, show (lowerChar '\n' == 's') = false
        from by decide])]
    rw [lstripP, lstripP, List.dropWhile_cons, if_pos (by decide)]
  · obtain ⟨a, b, c2, rfl⟩ : ∃ a b c2, tg = [a, b, c2] := by
      cases tg with
      | nil => cases h
      | cons a t1 =>
        cases t1 with
        | nil => exact absurd (congrArg List.length h) (by simp)
        | cons b t2 =>
          cases t2 with
          | nil =>
            exact absurd (congrArg List.length h) (by simp)
          | cons c2 t3 =>
            cases t3 with
            | nil => exact ⟨a, b, c2, rfl⟩
            | cons d t4 => exact absurd (congrArg List.length h) (by simp)
    simp only [List.map_cons, List.map_nil, List.cons.injEq, and_true] at h
    obtain ⟨ha, hb, hc2⟩ := h
    rw [show ([a, b, c2] ++ ('\n' :: (l ++ '\n' :: bt3))) =
        a :: b :: c2 :: ('\n' :: (l ++ '\n' :: bt3)) from rfl]
    rw [if_pos (by simp [startsWithLower, ha, hb, hc2])]
    simp only [List.drop_succ_cons, List.drop_zero]
    rw [lstripP, lstripP, List.dropWhile_cons, if_pos (by decide)]

theorem closeFenceSub_concatFence (lx : List Char) :
    closeFenceSub (lx ++ '\n' :: bt3) = rstripP pySpace lx := by
  have h1 : lx ++ '\n' :: bt3 = (lx ++ ['\n', '`', '`']) ++ ['`'] := by
    simp [bt3]
  have h2 : (lx ++ '\n' :: bt3).reverse = '`' :: '`' :: '`' :: '\n' ::
      lx.reverse := by
    rw [List.reverse_append]
    rw [show ('\n' :: bt3).reverse = ['`', '`', '`', '\n'] from by decide]
    rfl
  unfold closeFenceSub
  rw [h1, List.getLast?_concat, ← h1]
  dsimp only
  rw [if_neg (by decide)]
  unfold closeFenceAtEnd
  rw [if_pos (by
    unfold endsWithL
    rw [h2, show bt3.reverse = bt3 from by decide]
    simp [startsWithL, bt3])]
  rw [h2]
  simp only [List.drop_succ_cons, List.drop_zero]
  rw [List.reverse_cons, List.reverse_reverse]
  exact rstripP_append_allp
    (by intro c hc; simp at hc; subst hc; decide) lx

theorem pyStrip_ne_nil_of_lstrip {l : List Char}
    (h : lstripP pySpace l ≠ []) : pyStrip l ≠ [] := by
  intro hx
  unfold pyStrip at hx
  have hall := rstripP_eq_nil_all hx
  cases hlx : lstripP pySpace l with
  | nil => exact h hlx
  | cons c r =>
    have hlx' : List.dropWhile pySpace l = c :: r := hlx
    have hc := head_dropWhile_not hlx'
    have := hall c (by rw [hlx]; exact List.mem_cons_self c r)
    rw [this] at hc
    cases hc

theorem closeFenceSub_of_stripped {l : List Char} (hne : pyStrip l ≠ [])
    (h2 : endsWithL bt3 (pyStrip l) = false) :
    closeFenceSub (pyStrip l) = pyStrip l := by
  have hrev : (pyStrip l).reverse =
      List.dropWhile pySpace (lstripP pySpace l).reverse := by
    unfold pyStrip rstripP
    rw [List.reverse_reverse]
  cases hd : List.dropWhile pySpace (lstripP pySpace l).reverse with
  | nil =>
    exfalso
    apply hne
    unfold pyStrip rstripP
    rw [hd]
    rfl
  | cons c0 r =>
    have hc0 : pySpace c0 = false := head_dropWhile_not hd
    have hlast : (pyStrip l).getLast? = some c0 := by
      rw [← List.head?_reverse, hrev, hd]
      rfl
    unfold closeFenceSub
    rw [hlast]
    dsimp only
    rw [if_neg (by
      intro hq
      have hq' : c0 = '\n' := by simpa using hq
      subst hq'
      exact absurd hc0 (by decide))]
    unfold closeFenceAtEnd
    rw [if_neg (by simp [h2])]

theorem clean_fenceWrap_core (tg l : List Char)
    (htg : tg = [] ∨ tg.map lowerChar = ['s', 'q', 'l'])
    (h1 : startsWithL bt3 (pyStrip l) = false)
    (h2 : endsWithL bt3 (pyStrip l) = false) :
    clean_sql_from_modelL (bt3 ++ tg ++ '\n' :: l ++ '\n' :: bt3) =
      clean_sql_from_modelL l := by
  have hwne : bt3 ++ tg ++ '\n' :: l ++ '\n' :: bt3 ≠ [] := by simp [bt3]
  unfold clean_sql_from_modelL
  rw [if_neg hwne, pyStrip_fenceWrap tg l, openFenceSub_fenceWrap tg l htg]
  by_cases hlx : lstripP pySpace l = []
  · have happ : lstripP pySpace (l ++ '\n' :: bt3) =
        List.dropWhile pySpace ('\n' :: bt3) := by
      rw [lstripP, List.dropWhile_append]
      have : List.dropWhile pySpace l = [] := hlx
      rw [this]
      rfl
    rw [happ, show List.dropWhile pySpace ('\n' :: bt3) = bt3 from by decide,
      show closeFenceSub bt3 = [] from by decide,
      show pyStrip ([] : List Char) = [] from rfl]
    by_cases hl : l = []
    · rw [if_pos hl]
      decide
    · rw [if_neg hl]
      have hps : pyStrip l = [] := by
        unfold pyStrip
        rw [hlx]
        rfl
      rw [hps, show openFenceSub ([] : List Char) = [] from by decide,
        show closeFenceSub ([] : List Char) = [] from by decide,
        show pyStrip ([] : List Char) = [] from rfl]
  · have hlne : l ≠ [] := by
      intro h
      subst h
      exact hlx rfl
    obtain ⟨c, r, hcr⟩ : ∃ c r, lstripP pySpace l = c :: r := by
      cases h : lstripP pySpace l with
      | nil => exact absurd h hlx
      | cons c r => exact ⟨c, r, rfl⟩
    have happ : lstripP pySpace (l ++ '\n' :: bt3) =
        lstripP pySpace l ++ '\n' :: bt3 := by
      rw [lstripP, lstripP, List.dropWhile_append]
      have : List.dropWhile pySpace l = c :: r := hcr
      rw [this]
      rfl
    rw [happ, closeFenceSub_concatFence (lstripP pySpace l),
      show rstripP pySpace (lstripP pySpace l) = pyStrip l from rfl,
      pyStrip_idem, if_neg hlne,
      show openFenceSub (pyStrip l) = pyStrip l from by
        unfold openFenceSub
        rw [if_neg (by simp [h1])],
      closeFenceSub_of_stripped (pyStrip_ne_nil_of_lstrip hlx) h2,
      pyStrip_idem]

/-! ## Claim C4 -/

/-- C4 counterexample: on a raw output that itself contains the fence marker,
wrapping in a fenced block DOES change the extractor output: the wrapped form
keeps the stray marker while the bare form has it stripped by the
closing-fence substitution. -/
theorem C4_cex :
    clean_sql_from_model (fenceWrap ['s', 'q', 'l'] "select ```") ≠
      clean_sql_from_model "select ```" ∧
    clean_sql_from_model (fenceWrap ['s', 'q', 'l'] "select ```") =
      "select ```" ∧
    clean_sql_from_model "select ```" = "select" := by
  refine ⟨by decide, by decide, by decide⟩

/-- C4 (amended): for every raw model output whose stripped text neither
begins nor ends with the fence marker, wrapping it in a fenced code block —
with a case-insensitive `sql` tag or with no tag — yields exactly the same
normalized output as the unfenced equivalent. -/
theorem C4_fence_wrap_invariance (x : String) (tg : List Char)
    (htg : tg = [] ∨ tg.map lowerChar = ['s', 'q', 'l'])
    (h1 : startsWithL bt3 (pyStrip x.data) = false)
    (h2 : endsWithL bt3 (pyStrip x.data) = false) :
    clean_sql_from_model (fenceWrap tg x) = clean_sql_from_model x := by
  unfold clean_sql_from_model fenceWrap
  exact congrArg String.mk (clean_fenceWrap_core tg x.data htg h1 h2)

/-- Witness for C4 at a concrete raw output and an upper-case fence tag. -/
theorem C4_witness :
    clean_sql_from_model (fenceWrap ['S', 'Q', 'L'] "SELECT *\nFROM data") =
      clean_sql_from_model "SELECT *\nFROM data" :=
  C4_fence_wrap_invariance "SELECT *\nFROM data" ['S', 'Q', 'L']
    (Or.inr (by decide)) (by decide) (by decide)
